import Mathlib

/-!
Verification of the waybar virtual-desktops module (Rust sources under `src/`).

Rust strings are modelled as `List Char` (`Str`); byte positions coincide with
character positions for the ASCII text the protocol uses.  Machine integers
(`u32`, `u64`) are modelled as `Nat`; every arithmetic operation below is
overflow-free at the bounds the code enforces (delays are capped at 30000 ms,
attempt counts at 50), so no `% 2^w` reduction is needed.  `HashMap` /
`BTreeMap` values are modelled as association lists; all observations proved
about them (sorted snapshots, key sets, lookups) are independent of the
iteration order that the Rust hash map leaves unspecified.
-/

namespace WaybarVD

/-- Rust `&str` / `String`, modelled as a list of characters. -/
abbrev Str := List Char

/-- Characters of a Lean string literal. -/
def chars (s : String) : Str := s.toList

/-- Unicode `White_Space` predicate used by Rust's `str::trim`
(`char::is_whitespace`). -/
def isWS (c : Char) : Bool :=
  ([9, 10, 11, 12, 13, 32, 0x85, 0xA0, 0x1680,
    0x2028, 0x2029, 0x202F, 0x205F, 0x3000] : List Nat).contains c.toNat
  || (decide (0x2000 ≤ c.toNat) && decide (c.toNat ≤ 0x200A))

/-- Rust `str::trim`: whitespace removed from both ends. -/
def trim (l : Str) : Str := (l.dropWhile isWS).rdropWhile isWS

/-- Split a character list at every occurrence of `sep` (like
`String::split('\n')`: a trailing separator yields a trailing empty piece). -/
def splitNL : Str → List Str
  | [] => [[]]
  | c :: cs =>
    if c = '\n' then [] :: splitNL cs
    else
      match splitNL cs with
      | [] => [[c]]
      | s :: ss => (c :: s) :: ss

/-- Drop one trailing carriage return, as Rust's `str::lines` does per line. -/
def stripCR (l : Str) : Str := if l.getLast? = some '\r' then l.dropLast else l

/-- Rust `str::lines`: split on `'\n'`, drop the optional final empty piece,
strip a trailing `'\r'` from each line. -/
def rustLines (s : Str) : List Str :=
  let parts := splitNL s
  let parts := if parts.getLast? = some ([] : Str) then parts.dropLast else parts
  parts.map stripCR

/-- Index of the first `':'` in a line (Rust `str::find(':')`). -/
def findColon : Str → Option Nat
  | [] => none
  | c :: cs => if c = ':' then some 0 else (findColon cs).map (· + 1)

/-- Rust `str::strip_prefix`: remove `p` from the front if it is a prefix. -/
def stripPfx (p l : Str) : Option Str :=
  if p.isPrefixOf l then some (l.drop p.length) else none

/-- ASCII decimal digit test (code points 48–57). -/
def isDigitChar (c : Char) : Bool := decide (48 ≤ c.toNat) && decide (c.toNat ≤ 57)

/-- Numeric value of an ASCII digit. -/
def digitVal (c : Char) : Nat := c.toNat - 48

/-- Value of a most-significant-first digit string. -/
def evalDigits (l : Str) : Nat := l.foldl (fun a c => a * 10 + digitVal c) 0

/-- Rust `u32::from_str`: optional leading `'+'`, then one or more ASCII
digits, rejecting the empty string and values ≥ 2^32.  (Checked Rust
accumulation overflows exactly when the final value would exceed `u32::MAX`,
because the accumulator is monotone, so a single final bound check is
equivalent.) -/
def parseU32 (s : Str) : Option Nat :=
  let digits := if s.head? = some '+' then s.tail else s
  if digits.isEmpty then none
  else if digits.all isDigitChar then
    if evalDigits digits < 4294967296 then some (evalDigits digits) else none
  else none

/-- ASCII digit of a value below ten. -/
def digitToChar : Nat → Char
  | 0 => '0' | 1 => '1' | 2 => '2' | 3 => '3' | 4 => '4'
  | 5 => '5' | 6 => '6' | 7 => '7' | 8 => '8' | _ => '9'

/-- Least-significant-first decimal digits of `n` (with fuel). -/
def natCharsAux : Nat → Nat → Str
  | 0, _ => []
  | _ + 1, 0 => []
  | fuel + 1, n + 1 => digitToChar ((n + 1) % 10) :: natCharsAux fuel ((n + 1) / 10)

/-- Rust `u32::to_string`: most-significant-first decimal numeral. -/
def natChars (n : Nat) : Str := if n = 0 then ['0'] else (natCharsAux n n).reverse

/-- Replace all non-overlapping occurrences of `pat` (left to right) with
`rep`, as Rust `str::replace` does for the nonempty literal patterns the
config formatter uses.  The fuel argument equals the remaining input length,
so the recursion is structural and computable by `decide`. -/
def replaceAllAux (pat rep : Str) : Nat → Str → Str
  | 0, s => s
  | _ + 1, [] => []
  | fuel + 1, c :: rest =>
    if pat ≠ [] ∧ pat.isPrefixOf (c :: rest) then
      rep ++ replaceAllAux pat rep fuel ((c :: rest).drop pat.length)
    else
      c :: replaceAllAux pat rep fuel rest

/-- Rust `str::replace` for nonempty patterns. -/
def replaceAll (s pat rep : Str) : Str := replaceAllAux pat rep s.length s

/-! ## Data model (`src/vdesk.rs`) -/

/-- `VirtualDesktop` record from `src/vdesk.rs`. -/
structure VirtualDesktop where
  id : Nat
  name : Str
  focused : Bool
  populated : Bool
  window_count : Nat
deriving DecidableEq, Repr

/-- `VirtualDesktop::new` from `src/vdesk.rs`. -/
def VirtualDesktop.new (id : Nat) (name : Str) : VirtualDesktop :=
  { id := id, name := name, focused := false, populated := false, window_count := 0 }

/-- The manager's `HashMap<u32, VirtualDesktop>`, as an association list. -/
abbrev VDMap := List (Nat × VirtualDesktop)

/-- Association-list lookup (the `HashMap` / `BTreeMap` key lookup). -/
def alookup {β : Type} (k : Nat) : List (Nat × β) → Option β
  | [] => none
  | (k2, v) :: rest => if k2 = k then some v else alookup k rest

/-- Association-list lookup specialised to desktops. -/
def lookupA (k : Nat) (m : VDMap) : Option VirtualDesktop := alookup k m

/-- `HashMap::insert`: replace the value at an existing key, otherwise add the
binding. -/
def insertAssoc (m : VDMap) (k : Nat) (v : VirtualDesktop) : VDMap :=
  match lookupA k m with
  | some _ => m.map (fun p => if p.1 = k then (k, v) else p)
  | none => m ++ [(k, v)]

/-- Line prefixes used by `parse_virtual_desktop_state`. -/
def hdrPfx : Str := chars "Virtual desk "

def focusedPfx : Str := chars "Focused: "

def populatedPfx : Str := chars "Populated: "

def windowsPfx : Str := chars "Windows: "

def trueSuffix : Str := chars "true"

/-- Header-line handling inside `parse_virtual_desktop_state`: locate the
first colon, split into `desk_part`/`name_part`, strip the `"Virtual desk "`
prefix and parse the id.  Any failure leaves no current desktop (the source
`take()`s the previous one unconditionally). -/
def parseHeaderLine (line : Str) : Option VirtualDesktop :=
  (findColon line).bind fun colonPos =>
    let desk_part := line.take colonPos
    let name_part := trim (line.drop (colonPos + 1))
    (stripPfx hdrPfx desk_part).bind fun id_str =>
      (parseU32 id_str).map fun id => VirtualDesktop.new id name_part

/-- Attribute-line handling inside `parse_virtual_desktop_state` for an open
desktop: `Focused:`/`Populated:` read `ends_with("true")`, `Windows:` parses
the count with `unwrap_or(0)`. -/
def applyAttrLine (v : VirtualDesktop) (line : Str) : VirtualDesktop :=
  if focusedPfx.isPrefixOf line then
    { v with focused := trueSuffix.isSuffixOf line }
  else if populatedPfx.isPrefixOf line then
    { v with populated := trueSuffix.isSuffixOf line }
  else if windowsPfx.isPrefixOf line then
    { v with window_count :=
        (((stripPfx windowsPfx line).map fun count_str => (parseU32 count_str).getD 0).getD
          v.window_count) }
  else v

/-- Saving the open desktop into the map (`if let Some(vdesk) = ... take()`
followed by `insert`). -/
def flushCur (m : VDMap) : Option VirtualDesktop → VDMap
  | some v => insertAssoc m v.id v
  | none => m

/-- One loop iteration of `parse_virtual_desktop_state`: trim the line; a
header line flushes the open desktop into the map and opens a new one (or
none, on a malformed header); other lines update the open desktop if any and
are discarded otherwise. -/
def parseStep (st : VDMap × Option VirtualDesktop) (rawLine : Str) :
    VDMap × Option VirtualDesktop :=
  let line := trim rawLine
  if hdrPfx.isPrefixOf line then
    (flushCur st.1 st.2, parseHeaderLine line)
  else
    match st.2 with
    | some v => (st.1, some (applyAttrLine v line))
    | none => st

/-- `parse_virtual_desktop_state` from `src/vdesk.rs`.  The source first
`clear()`s `self.virtual_desktops`, so the resulting map never depends on the
prior store contents; the function has no error return (`Ok(())` always), so
it is modelled as a total function to the new map. -/
def parse_virtual_desktop_state (state : Str) : VDMap :=
  let fin := (rustLines state).foldl parseStep ([], none)
  flushCur fin.1 fin.2

/-- `get_virtual_desktops` from `src/vdesk.rs`: clone the values and
stable-sort them by `id` (`sort_by_key`). -/
def get_virtual_desktops (m : VDMap) : List VirtualDesktop :=
  (m.map (·.2)).mergeSort (fun a b => decide (a.id ≤ b.id))

/-! ## Configuration (`src/config.rs`) -/

/-- `SortStrategy` from `src/config.rs`. -/
inductive SortStrategy
  | number
  | name
  | focusedFirst
deriving DecidableEq, Repr

/-- `ModuleConfig` from `src/config.rs` (`format_icons` as an association
list). -/
structure ModuleConfig where
  format : Str
  show_empty : Bool
  separator : Str
  format_icons : List (Str × Str)
  show_window_count : Bool
  sort_by : SortStrategy
  retry_max : Nat
  retry_base_delay_ms : Nat
deriving DecidableEq, Repr

/-- `ModuleConfig::default` from `src/config.rs` (all serde defaults). -/
def defaultConfig : ModuleConfig :=
  { format := chars "{name}"
    show_empty := false
    separator := chars " "
    format_icons := []
    show_window_count := false
    sort_by := SortStrategy.number
    retry_max := 10
    retry_base_delay_ms := 500 }

/-- String-keyed association lookup (the `HashMap<String, String>` icon
table). -/
def lookupS (k : Str) : List (Str × Str) → Option Str
  | [] => none
  | (k2, v) :: rest => if k2 = k then some v else lookupS k rest

/-- `ModuleConfig::format_virtual_desktop` from `src/config.rs`: icon looked
up by id string then by name, defaulting to the empty string; placeholders
substituted in the source's order. -/
def format_virtual_desktop (cfg : ModuleConfig) (name : Str) (id window_count : Nat) : Str :=
  let icon := ((lookupS (natChars id) cfg.format_icons).or
      (lookupS name cfg.format_icons)).getD []
  replaceAll
    (replaceAll
      (replaceAll
        (replaceAll cfg.format (chars "{name}") name)
        (chars "{icon}") icon)
      (chars "{id}") (natChars id))
    (chars "{window_count}") (natChars window_count)

/-- `ModuleConfig::format_tooltip` from `src/config.rs`: window count only
when `show_window_count` is set, focus marker appended last. -/
def format_tooltip (cfg : ModuleConfig) (name : Str) (id window_count : Nat)
    (focused : Bool) : Str :=
  chars "Virtual Desktop " ++ natChars id ++ chars ": " ++ name
    ++ (if cfg.show_window_count then chars " (" ++ natChars window_count ++ chars " windows)" else [])
    ++ (if focused then chars " - focused" else [])

/-! ## Display pipeline (`src/lib.rs` `update_display`) -/

/-- The visibility filter from `update_display` in `src/lib.rs`: a desktop is
shown when populated, focused, or `show_empty` is set. -/
def visibleFilter (cfg : ModuleConfig) (vds : List VirtualDesktop) : List VirtualDesktop :=
  vds.filter (fun v => v.populated || v.focused || cfg.show_empty)

/-- The display order handed to the renderer by `update_display` in
`src/lib.rs`: the store snapshot (id-ascending) restricted to the visible
desktops.  No use of `cfg.sort_by` appears anywhere in that path. -/
def update_display_order (cfg : ModuleConfig) (m : VDMap) : List Nat :=
  (visibleFilter cfg (get_virtual_desktops m)).map (·.id)

/-- Lexicographic order on character lists (Rust `String` ordering; UTF-8
byte order coincides with code-point order). -/
def lexLe : Str → Str → Bool
  | [], _ => true
  | _ :: _, [] => false
  | a :: as, b :: bs => if a < b then true else if a = b then lexLe as bs else false

/-- Modelled from the spec: the target display order of §4.5 — the eligible
set sorted per the configured strategy (numeric id ascending, name lexical
ascending, or the focused desktop first with the rest numeric-ascending).
This function is absent from the source; it exists only to compare the
spec's words against `update_display_order`. -/
def specTargetOrder (strategy : SortStrategy) (eligible : List VirtualDesktop) :
    List VirtualDesktop :=
  match strategy with
  | SortStrategy.number => eligible.mergeSort (fun a b => decide (a.id ≤ b.id))
  | SortStrategy.name => eligible.mergeSort (fun a b => lexLe a.name b.name)
  | SortStrategy.focusedFirst =>
      eligible.filter (·.focused)
        ++ (eligible.filter (fun v => !v.focused)).mergeSort (fun a b => decide (a.id ≤ b.id))

/-! ## Transport (`src/hyprland.rs`) -/

/-- Character class of the instance-signature allow-list regex
`[a-zA-Z0-9_-]`. -/
def allowedSigChar (c : Char) : Bool :=
  (decide ('a' ≤ c) && decide (c ≤ 'z'))
    || (decide ('A' ≤ c) && decide (c ≤ 'Z'))
    || isDigitChar c || c = '_' || c = '-'

/-- `validate_instance_signature` from `src/hyprland.rs`: the empty check and
the regex `^[a-zA-Z0-9_-]{1,64}$`; `true` exactly when the source returns
`Ok(())`. -/
def validate_instance_signature (s : Str) : Bool :=
  !s.isEmpty && decide (s.length ≤ 64) && s.all allowedSigChar

/-- Construction-time failures of `HyprlandIPC::with_config`. -/
inductive EndpointError
  | invalidInstanceId
  | endpointNotFound
deriving DecidableEq, Repr

/-- The two derived socket paths. -/
structure Endpoints where
  command_path : Str
  event_socket_path : Str
deriving DecidableEq, Repr

/-- Path join `<runtime_dir>/hypr/<sig>/<file>` from
`HyprlandIPC::with_config`. -/
def socketPath (runtimeDir sig file : Str) : Str :=
  runtimeDir ++ chars "/hypr/" ++ sig ++ chars "/" ++ file

/-- `HyprlandIPC::with_config` from `src/hyprland.rs`, with the filesystem
abstracted as an existence predicate: validate the signature first (both the
empty case and the regex mismatch are the construction-time invalid-id
failure), then require both derived socket paths to exist. -/
def with_config (runtimeDir sig : Str) (pathExists : Str → Bool) :
    Except EndpointError Endpoints :=
  if !validate_instance_signature sig then Except.error EndpointError.invalidInstanceId
  else
    let socket_path := socketPath runtimeDir sig (chars ".socket.sock")
    let event_socket_path := socketPath runtimeDir sig (chars ".socket2.sock")
    if !pathExists socket_path then Except.error EndpointError.endpointNotFound
    else if !pathExists event_socket_path then Except.error EndpointError.endpointNotFound
    else Except.ok { command_path := socket_path, event_socket_path := event_socket_path }

/-! ## Retry policy (`src/hyprland.rs` `listen_for_events`,
`src/monitor.rs` `resilient_monitor_loop`) -/

/-- The capped exponential delay of `listen_for_events`:
`min(base_delay_ms * 2^(attempt-1), MAX_DELAY_MS)`. -/
def expectedDelay (attempt base maxDelay : Nat) : Nat :=
  min (base * 2 ^ (attempt - 1)) maxDelay

/-- `jitter_range = base_delay / 4` (integer division, 25 % of the capped
delay). -/
def jitterRange (attempt base maxDelay : Nat) : Nat :=
  expectedDelay attempt base maxDelay / 4

/-- The jittered delay of `listen_for_events`:
`base_delay.saturating_sub(jitter_range).saturating_add(jitter)` with
`jitter` drawn from `[0, 2*jitter_range]`.  `Nat` subtraction is saturating;
the addition cannot overflow at the enforced bounds. -/
def backoffDelayMs (attempt base maxDelay jitter : Nat) : Nat :=
  expectedDelay attempt base maxDelay - jitterRange attempt base maxDelay + jitter

/-- The give-up predicate of the retry loop in `listen_for_events`:
`retry_count > max_retries`. -/
def listen_gives_up (attempt maxRetries : Nat) : Bool :=
  decide (attempt > maxRetries)

/-- `MAX_CONSECUTIVE_FAILURES` from `src/monitor.rs`. -/
def MAX_CONSECUTIVE_FAILURES : Nat := 5

/-- Outcome of one failure iteration of `resilient_monitor_loop`. -/
inductive MonitorOutcome
  | retryAfter (delayMs : Nat)
  | retryExhausted (attempts : Nat)
deriving DecidableEq, Repr

/-- The failure branch of `resilient_monitor_loop` in `src/monitor.rs`:
increment `consecutive_failures`; if the counter has reached
`MAX_CONSECUTIVE_FAILURES` return the terminal `RetryExhausted`, otherwise
wait `retry_base_delay_ms * 2^(consecutive_failures-1)`. -/
def monitor_failure_step (consecutive_failures base : Nat) : Nat × MonitorOutcome :=
  let cf := consecutive_failures + 1
  if cf ≥ MAX_CONSECUTIVE_FAILURES then (cf, MonitorOutcome.retryExhausted MAX_CONSECUTIVE_FAILURES)
  else (cf, MonitorOutcome.retryAfter (base * 2 ^ (cf - 1)))

/-! ## Widget reconciliation (`src/ui/widgets.rs`) -/

/-- Rendered per-widget state tracked by `VirtualDesktopWidget`. -/
structure WidgetState where
  display_text : Str
  tooltip_text : Str
  focused : Bool
deriving DecidableEq, Repr

/-- `WidgetManager` state: the `BTreeMap<u32, VirtualDesktopWidget>` (kept
sorted by key, mirroring `BTreeMap` iteration order) and `widget_order`. -/
structure WMState where
  widgets : List (Nat × WidgetState)
  widget_order : List Nat
deriving DecidableEq, Repr

/-- The GTK side effects emitted by the reconciler, in emission order. -/
inductive WOp
  | destroy (id : Nat)
  | setText (id : Nat) (text : Str)
  | setTooltip (id : Nat) (text : Str)
  | setFocus (id : Nat) (focused : Bool)
  | create (id : Nat) (text tooltip : Str) (focused : Bool)
  | reorder (id : Nat) (pos : Nat)
deriving DecidableEq, Repr

/-- Position of the last occurrence of `id` in `order` — the value stored in
the source's `HashMap` position maps, where `enumerate`-order insertion lets
a later index override an earlier one. -/
def lastIdx? (order : List Nat) (id : Nat) : Option Nat :=
  (order.enum.filterMap (fun p => if p.2 = id then some p.1 else none)).getLast?

/-- The entries of the `target_positions` map of
`optimize_widget_reordering`, enumerated in a fixed order (one entry per
distinct id, carrying its last index).  The Rust `HashMap` iterates these in
an unspecified order; every property proved below is order-independent. -/
def targetEntries (new_order : List Nat) : List (Nat × Nat) :=
  new_order.enum.filter (fun p => lastIdx? new_order p.2 = some p.1)

/-- `moves_needed` of `optimize_widget_reordering` in `src/ui/widgets.rs`:
`(widget_id, target_pos)` for every id present in both position maps whose
current position differs from its target position. -/
def movesNeeded (old_order new_order : List Nat) : List (Nat × Nat) :=
  (targetEntries new_order).filterMap (fun p =>
    match lastIdx? old_order p.2 with
    | some cur => if cur ≠ p.1 then some (p.2, p.1) else none
    | none => none)

/-- In-place value replacement at a key (`BTreeMap::get_mut` mutation). -/
def replaceW : List (Nat × WidgetState) → Nat → WidgetState → List (Nat × WidgetState)
  | [], _, _ => []
  | (k2, v) :: rest, k, w =>
    if k2 = k then (k, w) :: replaceW rest k w else (k2, v) :: replaceW rest k w

/-- `BTreeMap::insert` of a fresh key, keeping the list sorted by key. -/
def insertSortedW (m : List (Nat × WidgetState)) (k : Nat) (w : WidgetState) :
    List (Nat × WidgetState) :=
  match m with
  | [] => [(k, w)]
  | (k2, w2) :: rest =>
    if k < k2 then (k, w) :: (k2, w2) :: rest
    else if k = k2 then (k, w) :: rest
    else (k2, w2) :: insertSortedW rest k w

/-- `VirtualDesktopWidget::update_if_changed` from `src/ui/widgets.rs`:
emit a text op, a tooltip op, and a focus op only for fields that differ
from what was last applied, and record the new values. -/
def update_if_changed (w : WidgetState) (vd : VirtualDesktop) (dt tt : Str) :
    WidgetState × List WOp :=
  let ops1 := if w.display_text ≠ dt then [WOp.setText vd.id dt] else []
  let ops2 := if w.tooltip_text ≠ tt then [WOp.setTooltip vd.id tt] else []
  let ops3 := if w.focused ≠ vd.focused then [WOp.setFocus vd.id vd.focused] else []
  ({ display_text := dt, tooltip_text := tt, focused := vd.focused }, ops1 ++ ops2 ++ ops3)

/-- The widget content `update_widgets` computes for a desktop: display text
and tooltip from the config formatters, plus the focus flag. -/
def renderWidget (cfg : ModuleConfig) (d : VirtualDesktop) : WidgetState :=
  { display_text := format_virtual_desktop cfg d.name d.id d.window_count
    tooltip_text := format_tooltip cfg d.name d.id d.window_count d.focused
    focused := d.focused }

/-- Phase 2 of `WidgetManager::update_widgets`: update an existing widget via
`update_if_changed`, or create and register a new one. -/
def phase2Step (cfg : ModuleConfig) (acc : List (Nat × WidgetState) × List WOp)
    (vd : VirtualDesktop) : List (Nat × WidgetState) × List WOp :=
  let dt := format_virtual_desktop cfg vd.name vd.id vd.window_count
  let tt := format_tooltip cfg vd.name vd.id vd.window_count vd.focused
  match alookup vd.id acc.1 with
  | some w =>
    let r := update_if_changed w vd dt tt
    (replaceW acc.1 vd.id r.1, acc.2 ++ r.2)
  | none =>
    (insertSortedW acc.1 vd.id { display_text := dt, tooltip_text := tt, focused := vd.focused },
     acc.2 ++ [WOp.create vd.id dt tt vd.focused])

/-- Phase 1 of `update_widgets`: the keys of the widgets whose desktops are
no longer visible (`widgets_to_remove`; `BTreeMap::keys` yields them in
ascending key order). -/
def uwRemoved (st : WMState) (visible_ids : List Nat) : List Nat :=
  (st.widgets.map (·.1)).filter (fun id => !visible_ids.contains id)

/-- Phase 1 of `update_widgets`: the widget map after the removals. -/
def uwKept (st : WMState) (visible_ids : List Nat) : List (Nat × WidgetState) :=
  st.widgets.filter (fun p => visible_ids.contains p.1)

/-- `WidgetManager::update_widgets` from `src/ui/widgets.rs`: destroy widgets
of no-longer-visible desktops, update or create a widget per visible desktop,
then reorder via `optimize_widget_reordering` when the order changed.
Returns the new manager state and the emitted GTK operations. -/
def update_widgets (cfg : ModuleConfig) (st : WMState) (visible : List VirtualDesktop) :
    WMState × List WOp :=
  let visible_ids := visible.map (·.id)
  let removed := uwRemoved st visible_ids
  let order1 := st.widget_order.filter (fun id => !removed.contains id)
  let step2 := visible.foldl (phase2Step cfg) (uwKept st visible_ids, removed.map WOp.destroy)
  if visible_ids ≠ order1 then
    let moves := (movesNeeded order1 visible_ids).filter (fun mv => (alookup mv.1 step2.1).isSome)
    ({ widgets := step2.1, widget_order := visible_ids },
     step2.2 ++ moves.map (fun mv => WOp.reorder mv.1 mv.2))
  else
    ({ widgets := step2.1, widget_order := order1 }, step2.2)

/-! ## Well-formed payloads and claim-specific fixtures -/

/-- Rust `bool` `Display` output. -/
def boolChars (b : Bool) : Str := if b then chars "true" else chars "false"

/-- The protocol lines of one desktop record, in the `printstate` shape shown
in `src/vdesk.rs` (header with name after the colon, then `Focused:`,
`Populated:`, `Windows:` attribute lines). -/
def mkRecordLines (d : VirtualDesktop) : List Str :=
  [hdrPfx ++ natChars d.id ++ chars ":    " ++ d.name,
   chars "    Focused: " ++ boolChars d.focused,
   chars "    Populated: " ++ boolChars d.populated,
   chars "    Windows: " ++ natChars d.window_count]

/-- A well-formed `printstate` payload for a list of records: every record's
lines, each terminated by a newline. -/
def mkPayload (rs : List VirtualDesktop) : Str :=
  ((rs.map mkRecordLines).flatten.map (fun l => l ++ ['\n'])).flatten

/-- A name round-trips through the parser when it carries no newline and no
leading or trailing whitespace (the payload's own framing). -/
def WfName (name : Str) : Prop :=
  name.dropWhile isWS = name ∧ name.rdropWhile isWS = name ∧ '\n' ∉ name

/-- A record is representable in the protocol: `u32`-ranged numbers and a
round-trippable name. -/
def WfRecord (d : VirtualDesktop) : Prop :=
  d.id < 4294967296 ∧ d.window_count < 4294967296 ∧ WfName d.name

instance (name : Str) : Decidable (WfName name) := by
  unfold WfName
  infer_instance

instance (d : VirtualDesktop) : Decidable (WfRecord d) := by
  unfold WfRecord
  infer_instance

/-- Strictly-sorted key invariant of the widget `BTreeMap`. -/
def WfWM (st : WMState) : Prop :=
  List.Pairwise (· < ·) (st.widgets.map (·.1))

/-- Prior store contents used to exhibit the data loss of claim C1. -/
def c1PriorStore : VDMap := [(1, ⟨1, chars "Focus", true, true, 2⟩)]

/-- Store fixture for claim C2: two populated desktops whose name order and
focus order both disagree with the id order. -/
def c2Store : VDMap :=
  [(1, ⟨1, chars "B", false, true, 1⟩), (2, ⟨2, chars "A", true, true, 1⟩)]

/-- Config fixture for claim C9: the scenario's format string over the
defaults (in particular `show_window_count` keeps its default `false`). -/
def c9Config : ModuleConfig :=
  { defaultConfig with format := chars "{icon} {name} ({window_count})" }

/-! ## Claim C1 -/

/-- C1: `parse_virtual_desktop_state` begins with
`self.virtual_desktops.clear()` and rebuilds only from the payload, so on a
payload with no well-formed desktop records the store ends up empty — the
prior mapping is NOT left untouched.  This theorem evaluates the code at the
failing input: the result of a refresh with a garbage payload is the empty
map (and stays empty over three consecutive such cycles), while the prior
store was nonempty. -/
theorem c1_parse_failure_clears_store :
    parse_virtual_desktop_state (chars "garbage") = ([] : VDMap) ∧
    get_virtual_desktops (parse_virtual_desktop_state (chars "garbage")) = [] ∧
    c1PriorStore ≠ ([] : VDMap) := by
  refine ⟨by decide, ?_, by decide⟩
  have h : parse_virtual_desktop_state (chars "garbage") = ([] : VDMap) := by decide
  rw [h]
  simp [get_virtual_desktops]

/-! ## Claim C2 -/

unseal List.merge List.mergeSort in
/-- C2: `update_display` never consults the configured sort strategy — its
display order is the visibility-filtered snapshot in numeric id order for
every strategy — so for the `name` strategy (and likewise `focused-first`)
the order handed to the renderer differs from the eligible set sorted per
the strategy.  Concretely, for two populated desktops `1:"B"` (unfocused)
and `2:"A"` (focused): the code hands `[1, 2]` to the renderer while the
spec's name-sorted target is `[2, 1]` and its focused-first target is also
`[2, 1]`. -/
theorem c2_sort_strategy_ignored :
    (∀ (cfg : ModuleConfig) (m : VDMap) (s : SortStrategy),
        update_display_order { cfg with sort_by := s } m = update_display_order cfg m) ∧
    update_display_order { defaultConfig with sort_by := SortStrategy.name } c2Store = [1, 2] ∧
    (specTargetOrder SortStrategy.name
        (visibleFilter { defaultConfig with sort_by := SortStrategy.name }
          (get_virtual_desktops c2Store))).map (·.id) = [2, 1] ∧
    (specTargetOrder SortStrategy.focusedFirst
        (visibleFilter { defaultConfig with sort_by := SortStrategy.focusedFirst }
          (get_virtual_desktops c2Store))).map (·.id) = [2, 1] ∧
    ([1, 2] : List Nat) ≠ [2, 1] := by
  refine ⟨fun cfg m s => rfl, by decide, by decide, by decide, by decide⟩

/-! ## Claim C3 -/

/-- C3 counterexample: with `max_attempts = 5`, the monitor loop's 5th
consecutive failure (attempt 5 ≤ 5) already surfaces the terminal
`RetryExhausted`, although the claimed predicate `attempt > max_attempts` is
false at 5. -/
theorem c3_counterexample :
    (monitor_failure_step 4 500).2 = MonitorOutcome.retryExhausted 5 ∧
    listen_gives_up 5 5 = false := by
  decide

/-- C3 amended: the give-up predicate of the event-listening retry loop in
`listen_for_events` is `attempt > max_attempts` (with max 5: no give-up for
attempt ≤ 5, give-up for attempt ≥ 6), while `resilient_monitor_loop`
surfaces its terminal `RetryExhausted` as soon as the consecutive-failure
counter reaches `MAX_CONSECUTIVE_FAILURES = 5` — on the 5th consecutive
failure, not the 6th. -/
theorem c3_retry_giveup_amended :
    (∀ attempt maxAttempts : Nat,
        listen_gives_up attempt maxAttempts = true ↔ attempt > maxAttempts) ∧
    (∀ attempt : Nat, attempt ≤ 5 → listen_gives_up attempt 5 = false) ∧
    (∀ attempt : Nat, 6 ≤ attempt → listen_gives_up attempt 5 = true) ∧
    (∀ cf base : Nat,
        (monitor_failure_step cf base).2 =
            MonitorOutcome.retryExhausted MAX_CONSECUTIVE_FAILURES ↔ cf + 1 ≥ 5) := by
  refine ⟨fun a m => by simp [listen_gives_up], fun a h => ?_, fun a h => ?_, fun cf base => ?_⟩
  · simp [listen_gives_up]; omega
  · simp [listen_gives_up]; omega
  · by_cases h : cf + 1 ≥ 5
    · simp [monitor_failure_step, MAX_CONSECUTIVE_FAILURES, h]
    · simp [monitor_failure_step, MAX_CONSECUTIVE_FAILURES, h]

/-- C3 amended witness: the theorem applied at attempt 3 (no give-up) and the
monitor counter 4 (terminal on the 5th failure). -/
theorem c3_retry_giveup_amended_witness :
    listen_gives_up 3 5 = false ∧
    (monitor_failure_step 4 500).2 = MonitorOutcome.retryExhausted MAX_CONSECUTIVE_FAILURES :=
  ⟨c3_retry_giveup_amended.2.1 3 (by decide),
   (c3_retry_giveup_amended.2.2.2 4 500).mpr (by decide)⟩

/-! ## Claim C4 -/

/-- C4: for old order `[1,2,3,4,5]` and target `[1,3,2,5,4]` the reorder
computation emits moves for exactly the ids `{2,3,4,5}` (4 moves) and none
for id 1; and in general a move is emitted only for an id whose position in
the old-order position map exists and differs from its position in the
new-order position map. -/
theorem c4_minimal_moves :
    (List.Perm ((movesNeeded [1, 2, 3, 4, 5] [1, 3, 2, 5, 4]).map (·.1)) [2, 3, 4, 5] ∧
      (movesNeeded [1, 2, 3, 4, 5] [1, 3, 2, 5, 4]).length = 4 ∧
      ∀ mv ∈ movesNeeded [1, 2, 3, 4, 5] [1, 3, 2, 5, 4], mv.1 ≠ 1) ∧
    ∀ oldOrder newOrder id pos, (id, pos) ∈ movesNeeded oldOrder newOrder →
      lastIdx? newOrder id = some pos ∧
        ∃ cur, lastIdx? oldOrder id = some cur ∧ cur ≠ pos := by
  refine ⟨⟨by decide, by decide, by decide⟩, ?_⟩
  intro oldOrder newOrder id pos h
  unfold movesNeeded at h
  rw [List.mem_filterMap] at h
  obtain ⟨⟨epos, eid⟩, hmem, heq⟩ := h
  unfold targetEntries at hmem
  rw [List.mem_filter] at hmem
  obtain ⟨-, htgt⟩ := hmem
  rw [decide_eq_true_iff] at htgt
  cases hcur : lastIdx? oldOrder eid with
  | none => simp [hcur] at heq
  | some cur =>
    simp only [hcur] at heq
    by_cases hne : cur ≠ epos
    · rw [if_pos hne] at heq
      simp only [Option.some.injEq, Prod.mk.injEq] at heq
      obtain ⟨h1, h2⟩ := heq
      subst h1; subst h2
      exact ⟨htgt, cur, hcur, hne⟩
    · rw [if_neg hne] at heq
      exact absurd heq (by simp)

/-- C4 witness: the general only-if direction applied at old order `[1,2]`,
new order `[2,1]`, move `(1,1)`. -/
theorem c4_minimal_moves_witness :
    lastIdx? [2, 1] 1 = some 1 ∧ ∃ cur, lastIdx? [1, 2] 1 = some cur ∧ cur ≠ 1 :=
  c4_minimal_moves.2 [1, 2] [2, 1] 1 1 (by decide)

/-! ## Claim C5 -/

/-- C5: for every attempt in `[1, 50]` with base 1000 ms and cap 30000 ms,
and every jitter draw in `[0, 2*jitter_range]`, the jittered delay lies in
`[0.75 × expected, 1.25 × expected]` (stated over `Nat` as
`3·expected ≤ 4·delay ≤ 5·expected`), where
`expected = min(1000 · 2^(attempt-1), 30000)`. -/
theorem c5_backoff_delay_bounds :
    ∀ attempt jitter : Nat, 1 ≤ attempt → attempt ≤ 50 →
      jitter ≤ 2 * jitterRange attempt 1000 30000 →
      3 * expectedDelay attempt 1000 30000 ≤ 4 * backoffDelayMs attempt 1000 30000 jitter ∧
      4 * backoffDelayMs attempt 1000 30000 jitter ≤ 5 * expectedDelay attempt 1000 30000 := by
  intro attempt jitter h1 h50 hj
  unfold backoffDelayMs jitterRange at *
  generalize expectedDelay attempt 1000 30000 = e at *
  omega

/-- C5 witness: attempt 3 with the maximal jitter draw. -/
theorem c5_backoff_delay_bounds_witness :
    3 * expectedDelay 3 1000 30000 ≤ 4 * backoffDelayMs 3 1000 30000 2000 ∧
    4 * backoffDelayMs 3 1000 30000 2000 ≤ 5 * expectedDelay 3 1000 30000 :=
  c5_backoff_delay_bounds 3 2000 (by decide) (by decide) (by decide)

/-! ## Claim C6 -/

/-- C6: an instance identifier matching the allow-list pattern (1–64
characters drawn from `[a-zA-Z0-9_-]`) makes endpoint construction succeed
exactly when both derived socket paths exist; and an identifier containing
`'/'` or `".."`, the empty identifier, or one longer than 64 characters
fails with the invalid-instance-id error for EVERY filesystem-existence
predicate — i.e. before any path is examined. -/
theorem c6_resolve_endpoints :
    ∀ (runtimeDir sig : Str) (pathExists : Str → Bool),
      ((1 ≤ sig.length ∧ sig.length ≤ 64 ∧ ∀ c ∈ sig, allowedSigChar c = true) →
        ((∃ e, with_config runtimeDir sig pathExists = Except.ok e) ↔
          pathExists (socketPath runtimeDir sig (chars ".socket.sock")) = true ∧
          pathExists (socketPath runtimeDir sig (chars ".socket2.sock")) = true)) ∧
      (('/' ∈ sig ∨ (chars "..") <:+: sig ∨ sig = [] ∨ sig.length > 64) →
        with_config runtimeDir sig pathExists = Except.error EndpointError.invalidInstanceId) := by
  intro rt sig pe
  constructor
  · rintro ⟨h1, h64, hall⟩
    have hne : sig ≠ [] := by
      intro h; subst h; simp at h1
    have hv : validate_instance_signature sig = true := by
      unfold validate_instance_signature
      have hx : sig.all allowedSigChar = true := List.all_eq_true.mpr hall
      simp [List.isEmpty_iff, hne, h64, hx]
    unfold with_config
    rw [hv]
    cases hp1 : pe (socketPath rt sig (chars ".socket.sock")) <;>
      cases hp2 : pe (socketPath rt sig (chars ".socket2.sock")) <;>
        simp [hp1, hp2]
  · intro h
    have hv : validate_instance_signature sig = false := by
      unfold validate_instance_signature
      rcases h with h | h | h | h
      · have hx : sig.all allowedSigChar = false :=
          List.all_eq_false.mpr ⟨'/', h, by decide⟩
        simp [hx]
      · have hdot : '.' ∈ sig := h.subset (by decide)
        have hx : sig.all allowedSigChar = false :=
          List.all_eq_false.mpr ⟨'.', hdot, by decide⟩
        simp [hx]
      · subst h; decide
      · have hx : decide (sig.length ≤ 64) = false := by
          simp; omega
        simp [hx]
    unfold with_config
    rw [hv]
    simp

/-- C6 witness: the valid identifier `"abc"` with an all-existing filesystem
succeeds; the identifier `"a/b"` fails with the invalid-id error. -/
theorem c6_resolve_endpoints_witness :
    (∃ e, with_config (chars "x") (chars "abc") (fun _ => true) = Except.ok e) ∧
    with_config (chars "x") (chars "a/b") (fun _ => true) =
      Except.error EndpointError.invalidInstanceId :=
  ⟨((c6_resolve_endpoints (chars "x") (chars "abc") (fun _ => true)).1
      (by refine ⟨by decide, by decide, ?_⟩; decide)).mpr ⟨rfl, rfl⟩,
   (c6_resolve_endpoints (chars "x") (chars "a/b") (fun _ => true)).2
      (Or.inl (by decide))⟩

/-! ## Claim C9 -/

/-- C9 counterexample: with the scenario's format string over the default
configuration (`show_window_count` defaults to `false`), the tooltip
formatter does NOT return `"Virtual Desktop 1: Home (2 windows) - focused"`
for the record `{id 1, name "Home", focused, 2 windows}`. -/
theorem c9_tooltip_counterexample :
    format_tooltip c9Config (chars "Home") 1 2 true ≠
      chars "Virtual Desktop 1: Home (2 windows) - focused" := by
  decide

/-- C9 amended: the display text is `" Home (2)"` as claimed; the tooltip is
`"Virtual Desktop 1: Home - focused"` under the default
`show_window_count = false`, and equals the claimed
`"Virtual Desktop 1: Home (2 windows) - focused"` only when
`show_window_count` is enabled. -/
theorem c9_format_scenario_amended :
    format_virtual_desktop c9Config (chars "Home") 1 2 = chars " Home (2)" ∧
    format_tooltip c9Config (chars "Home") 1 2 true =
      chars "Virtual Desktop 1: Home - focused" ∧
    format_tooltip { c9Config with show_window_count := true } (chars "Home") 1 2 true =
      chars "Virtual Desktop 1: Home (2 windows) - focused" := by
  refine ⟨by decide, by decide, by decide⟩

/-! ## Claim C10 -/

/-- C10 counterexample: after a desktop header whose id fails to parse
(`"Virtual desk x:B"`), the following attribute line `"Focused: true"` is
NOT attached to the previously open desktop 1 — desktop 1 was saved and
closed when the malformed header was encountered, so its `focused` flag
stays `false`, contradicting the claim's attach-to-previous clause. -/
theorem c10_attr_after_bad_header_counterexample :
    parse_virtual_desktop_state (chars "Virtual desk 1:A\nVirtual desk x:B\nFocused: true") =
      [(1, ⟨1, chars "A", false, false, 0⟩)] ∧
    parse_virtual_desktop_state (chars "Virtual desk 1:A\nVirtual desk x:B\nFocused: true") ≠
      [(1, ⟨1, chars "A", true, false, 0⟩)] := by
  refine ⟨by decide, by decide⟩

/-- C10 amended: the parser is total (its embedding is a total function —
the source has no error return), a `Windows:` count that fails `u32` parsing
yields `window_count = 0`, a header whose id fails to parse is skipped while
saving and closing the previously open desktop so that the malformed
desktop's attribute lines are silently DISCARDED (not attached), and
attribute lines before any valid header are silently discarded. -/
theorem c10_parser_total_amended :
    parse_virtual_desktop_state (chars "Virtual desk 1:A\n    Windows: 12") =
      [(1, ⟨1, chars "A", false, false, 12⟩)] ∧
    parse_virtual_desktop_state (chars "Virtual desk 1:A\n    Windows: 12x") =
      [(1, ⟨1, chars "A", false, false, 0⟩)] ∧
    parse_virtual_desktop_state (chars "Virtual desk 1:A\nVirtual desk x:B\nFocused: true\nPopulated: true\nWindows: 7") =
      [(1, ⟨1, chars "A", false, false, 0⟩)] ∧
    parse_virtual_desktop_state (chars "Focused: true\nPopulated: true\nVirtual desk 2:B") =
      [(2, ⟨2, chars "B", false, false, 0⟩)] := by
  refine ⟨by decide, by decide, by decide, by decide⟩

/-! ## Association-list facts used by the reconciler proofs -/

theorem alookup_eq_none_iff {β : Type} (k : Nat) (m : List (Nat × β)) :
    alookup k m = none ↔ k ∉ m.map (·.1) := by
  induction m with
  | nil => simp [alookup]
  | cons p rest ih =>
    obtain ⟨k2, v⟩ := p
    by_cases h : k2 = k
    · subst h
      simp [alookup]
    · rw [List.map_cons, List.mem_cons, not_or]
      simp only [alookup, if_neg h, ih]
      exact ⟨fun hk => ⟨fun hx => h hx.symm, hk⟩, fun hx => hx.2⟩

theorem alookup_replaceW_ne {m : List (Nat × WidgetState)} {k j : Nat} {w : WidgetState}
    (h : j ≠ k) : alookup j (replaceW m k w) = alookup j m := by
  induction m with
  | nil => rfl
  | cons p rest ih =>
    obtain ⟨k2, v⟩ := p
    rw [replaceW]
    by_cases h2 : k2 = k
    · rw [if_pos h2]
      have hkj : ¬(k = j) := fun hx => h hx.symm
      have hk2j : ¬(k2 = j) := fun hx => h (h2 ▸ hx).symm
      simp only [alookup, if_neg hkj, if_neg hk2j]
      exact ih
    · rw [if_neg h2]
      simp only [alookup]
      split
      · rfl
      · exact ih

theorem replaceW_keys (m : List (Nat × WidgetState)) (k : Nat) (w : WidgetState) :
    (replaceW m k w).map (·.1) = m.map (·.1) := by
  induction m with
  | nil => rfl
  | cons p rest ih =>
    obtain ⟨k2, v⟩ := p
    by_cases h : k2 = k
    · subst h
      rw [replaceW, if_pos rfl, List.map_cons, List.map_cons, ih]
    · rw [replaceW, if_neg h, List.map_cons, List.map_cons, ih]

theorem replaceW_of_not_mem {m : List (Nat × WidgetState)} {k : Nat} {w : WidgetState}
    (h : k ∉ m.map (·.1)) : replaceW m k w = m := by
  induction m with
  | nil => rfl
  | cons p rest ih =>
    obtain ⟨k2, v⟩ := p
    rw [List.map_cons, List.mem_cons, not_or] at h
    rw [replaceW, if_neg (fun hx => h.1 hx.symm), ih h.2]

theorem alookup_replaceW_self {m : List (Nat × WidgetState)} {k : Nat} {w : WidgetState}
    (h : (alookup k m).isSome) : alookup k (replaceW m k w) = some w := by
  induction m with
  | nil => simp [alookup] at h
  | cons p rest ih =>
    obtain ⟨k2, v⟩ := p
    by_cases h2 : k2 = k
    · subst h2
      rw [replaceW, if_pos rfl]
      simp [alookup]
    · rw [replaceW, if_neg h2]
      simp only [alookup, if_neg h2] at h ⊢
      exact ih h

theorem replaceW_self {m : List (Nat × WidgetState)} {k : Nat} {w : WidgetState}
    (hnd : (m.map (·.1)).Nodup) (h : alookup k m = some w) : replaceW m k w = m := by
  induction m with
  | nil => simp [alookup] at h
  | cons p rest ih =>
    obtain ⟨k2, v⟩ := p
    simp only [List.map_cons, List.nodup_cons] at hnd
    rw [replaceW]
    by_cases h2 : k2 = k
    · simp only [alookup, if_pos h2, Option.some.injEq] at h
      rw [if_pos h2, ← h, ← h2, replaceW_of_not_mem hnd.1]
    · simp only [alookup, if_neg h2] at h
      rw [if_neg h2, ih hnd.2 h]

theorem insertSortedW_mem_keys (m : List (Nat × WidgetState)) (k j : Nat) (w : WidgetState) :
    j ∈ (insertSortedW m k w).map (·.1) ↔ j = k ∨ j ∈ m.map (·.1) := by
  induction m with
  | nil => simp [insertSortedW]
  | cons p rest ih =>
    obtain ⟨k2, v⟩ := p
    rw [insertSortedW]
    by_cases h1 : k < k2
    · rw [if_pos h1]
      simp
    · rw [if_neg h1]
      by_cases h2 : k = k2
      · rw [if_pos h2]
        subst h2
        simp
      · rw [if_neg h2]
        simp only [List.map_cons, List.mem_cons, ih]
        tauto

theorem insertSortedW_nodup {m : List (Nat × WidgetState)} {k : Nat} {w : WidgetState}
    (hnd : (m.map (·.1)).Nodup) (h : k ∉ m.map (·.1)) :
    ((insertSortedW m k w).map (·.1)).Nodup := by
  induction m with
  | nil => simp [insertSortedW]
  | cons p rest ih =>
    obtain ⟨k2, v⟩ := p
    simp only [List.map_cons, List.nodup_cons] at hnd
    simp only [List.map_cons, List.mem_cons, not_or] at h
    rw [insertSortedW]
    by_cases h1 : k < k2
    · rw [if_pos h1]
      simp only [List.map_cons, List.nodup_cons, List.mem_cons, not_or]
      exact ⟨⟨h.1, h.2⟩, hnd.1, hnd.2⟩
    · rw [if_neg h1]
      by_cases h2 : k = k2
      · exact absurd h2 h.1
      · rw [if_neg h2]
        simp only [List.map_cons, List.nodup_cons]
        refine ⟨?_, ih hnd.2 h.2⟩
        rw [insertSortedW_mem_keys, not_or]
        exact ⟨fun hx => h2 hx.symm, hnd.1⟩

theorem alookup_insertSortedW_self (m : List (Nat × WidgetState)) (k : Nat) (w : WidgetState)
    (h : k ∉ m.map (·.1)) : alookup k (insertSortedW m k w) = some w := by
  induction m with
  | nil => simp [insertSortedW, alookup]
  | cons p rest ih =>
    obtain ⟨k2, v⟩ := p
    simp only [List.map_cons, List.mem_cons, not_or] at h
    rw [insertSortedW]
    by_cases h1 : k < k2
    · rw [if_pos h1]
      simp [alookup]
    · rw [if_neg h1]
      by_cases h2 : k = k2
      · exact absurd h2 h.1
      · rw [if_neg h2]
        simp only [alookup, if_neg (fun hx : k2 = k => h2 hx.symm)]
        exact ih h.2

theorem alookup_insertSortedW_ne (m : List (Nat × WidgetState)) {k j : Nat} (w : WidgetState)
    (h : j ≠ k) : alookup j (insertSortedW m k w) = alookup j m := by
  have hkj : ¬(k = j) := fun hx => h hx.symm
  induction m with
  | nil => simp [insertSortedW, alookup, hkj]
  | cons p rest ih =>
    obtain ⟨k2, v⟩ := p
    rw [insertSortedW]
    by_cases h1 : k < k2
    · rw [if_pos h1]
      simp only [alookup, if_neg hkj]
    · rw [if_neg h1]
      by_cases h2 : k = k2
      · rw [if_pos h2]
        simp only [alookup, if_neg hkj, if_neg (h2 ▸ hkj)]
      · rw [if_neg h2]
        simp only [alookup]
        split
        · rfl
        · exact ih

/-! ## Phase-2 characterisation of `update_widgets` -/

theorem phase2_foldl_post (cfg : ModuleConfig) (l : List VirtualDesktop) :
    ∀ (ws : List (Nat × WidgetState)) (ops : List WOp),
      (ws.map (·.1)).Nodup → (l.map (·.id)).Nodup →
      (((l.foldl (phase2Step cfg) (ws, ops)).1.map (·.1)).Nodup ∧
        (∀ j, j ∈ (l.foldl (phase2Step cfg) (ws, ops)).1.map (·.1) ↔
          j ∈ ws.map (·.1) ∨ j ∈ l.map (·.id)) ∧
        (∀ d ∈ l, alookup d.id (l.foldl (phase2Step cfg) (ws, ops)).1 =
          some (renderWidget cfg d)) ∧
        (∀ j, j ∉ l.map (·.id) →
          alookup j (l.foldl (phase2Step cfg) (ws, ops)).1 = alookup j ws)) := by
  induction l with
  | nil => intro ws ops hnd _; simpa using hnd
  | cons d rest ih =>
    intro ws ops hndw hndl
    simp only [List.map_cons, List.nodup_cons] at hndl
    have hstep : ∃ ws2 ops2, phase2Step cfg (ws, ops) d = (ws2, ops2) ∧
        (ws2.map (·.1)).Nodup ∧
        alookup d.id ws2 = some (renderWidget cfg d) ∧
        (∀ j, j ∈ ws2.map (·.1) ↔ j ∈ ws.map (·.1) ∨ j = d.id) ∧
        (∀ j, j ≠ d.id → alookup j ws2 = alookup j ws) := by
      unfold phase2Step
      cases hl : alookup d.id ws with
      | some w =>
        refine ⟨_, _, rfl, ?_, ?_, ?_, ?_⟩
        · rw [replaceW_keys]; exact hndw
        · have : (alookup d.id ws).isSome := by rw [hl]; rfl
          simpa [update_if_changed, renderWidget] using alookup_replaceW_self (w := _) this
        · intro j
          rw [replaceW_keys]
          constructor
          · exact Or.inl
          · rintro (h | h)
            · exact h
            · subst h
              have hne : alookup d.id ws ≠ none := by
                rw [hl]
                exact fun hx => Option.noConfusion hx
              exact not_not.mp ((alookup_eq_none_iff d.id ws).not.mp hne)
        · intro j hj
          exact alookup_replaceW_ne hj
      | none =>
        have hmem : d.id ∉ ws.map (·.1) := (alookup_eq_none_iff d.id ws).mp hl
        refine ⟨_, _, rfl, insertSortedW_nodup hndw hmem, ?_, ?_, ?_⟩
        · simpa [renderWidget] using alookup_insertSortedW_self ws d.id _ hmem
        · intro j
          rw [insertSortedW_mem_keys]
          tauto
        · intro j hj
          exact alookup_insertSortedW_ne ws _ hj
    obtain ⟨ws2, ops2, heq, hnd2, hself, hkeys, hother⟩ := hstep
    have hfold : (d :: rest).foldl (phase2Step cfg) (ws, ops) =
        rest.foldl (phase2Step cfg) (ws2, ops2) := by
      simp [List.foldl_cons, heq]
    obtain ⟨ih1, ih2, ih3, ih4⟩ := ih ws2 ops2 hnd2 hndl.2
    rw [hfold]
    refine ⟨ih1, ?_, ?_, ?_⟩
    · intro j
      rw [ih2 j, hkeys j]
      simp only [List.map_cons, List.mem_cons]
      tauto
    · intro d2 hd2
      rcases List.mem_cons.mp hd2 with h | h
      · subst h
        rw [ih4 d2.id hndl.1, hself]
      · exact ih3 d2 h
    · intro j hj
      simp only [List.map_cons, List.mem_cons] at hj
      push_neg at hj
      rw [ih4 j hj.2, hother j hj.1]

theorem phase2_foldl_noop (cfg : ModuleConfig) (l : List VirtualDesktop) :
    ∀ (ws : List (Nat × WidgetState)) (ops : List WOp),
      (ws.map (·.1)).Nodup →
      (∀ d ∈ l, alookup d.id ws = some (renderWidget cfg d)) →
      l.foldl (phase2Step cfg) (ws, ops) = (ws, ops) := by
  induction l with
  | nil => intro ws ops _ _; rfl
  | cons d rest ih =>
    intro ws ops hnd hall
    have hd : alookup d.id ws = some (renderWidget cfg d) := hall d (by simp)
    have hstep : phase2Step cfg (ws, ops) d = (ws, ops) := by
      unfold phase2Step
      rw [hd]
      have hupd : update_if_changed (renderWidget cfg d) d
          (format_virtual_desktop cfg d.name d.id d.window_count)
          (format_tooltip cfg d.name d.id d.window_count d.focused) =
          (renderWidget cfg d, []) := by
        simp [update_if_changed, renderWidget]
      simp only [hupd]
      rw [replaceW_self hnd hd]
      simp
    rw [List.foldl_cons, hstep]
    exact ih ws ops hnd (fun d2 h2 => hall d2 (by simp [h2]))

/-! ## Claim C8 -/

/-- C8: the reconciler is idempotent — applying `update_widgets` to any
well-formed rendered state (`BTreeMap` keys are strictly sorted, hence
nodup) with a snapshot of distinct ids, and then applying it again with the
same snapshot and visibility, produces no operations the second time: no
destroy, no content update, no focus update, no create, and no move. -/
theorem c8_reconciler_idempotent (cfg : ModuleConfig) (st : WMState)
    (visible : List VirtualDesktop) (hwf : WfWM st)
    (hnd : (visible.map (·.id)).Nodup) :
    (update_widgets cfg (update_widgets cfg st visible).1 visible).2 = [] := by
  have hndw : (st.widgets.map (·.1)).Nodup := hwf.imp Nat.ne_of_lt
  have hndw1 : ((uwKept st (visible.map (·.id))).map (·.1)).Nodup :=
    List.Nodup.sublist (List.Sublist.map _ (List.filter_sublist _)) hndw
  obtain ⟨hP1, hP2, hP3, -⟩ := phase2_foldl_post cfg visible
      (uwKept st (visible.map (·.id)))
      ((uwRemoved st (visible.map (·.id))).map WOp.destroy) hndw1 hnd
  set step2 := visible.foldl (phase2Step cfg)
      (uwKept st (visible.map (·.id)),
       (uwRemoved st (visible.map (·.id))).map WOp.destroy) with hstep2
  -- every key of the phase-2 result is a visible id
  have hkeys_sub : ∀ j ∈ step2.1.map (·.1), j ∈ visible.map (·.id) := by
    intro j hj
    rcases (hP2 j).mp hj with h | h
    · rcases List.mem_map.mp h with ⟨p, hp, rfl⟩
      rcases List.mem_filter.mp hp with ⟨-, hc⟩
      simpa using hc
    · exact h
  -- run 1 ends in state ⟨step2.1, visible ids⟩
  have hrun1 : (update_widgets cfg st visible).1 =
      { widgets := step2.1, widget_order := visible.map (·.id) } := by
    rw [update_widgets]
    split
    · rfl
    · next hcond =>
      rw [not_ne_iff] at hcond
      rw [← hcond]
  rw [hrun1]
  -- run 2, phase by phase
  have hrem2 : (step2.1.map (·.1)).filter
      (fun id => !(visible.map (·.id)).contains id) = [] := by
    rw [List.filter_eq_nil_iff]
    intro j hj
    simp [hkeys_sub j hj]
  have hkept2 : step2.1.filter (fun p => (visible.map (·.id)).contains p.1) = step2.1 := by
    rw [List.filter_eq_self]
    intro p hp
    simpa using hkeys_sub p.1 (List.mem_map.mpr ⟨p, hp, rfl⟩)
  have horder2 : (visible.map (·.id)).filter
      (fun id => !([] : List Nat).contains id) = visible.map (·.id) := by
    simp
  have hnoop : visible.foldl (phase2Step cfg) (step2.1, ([] : List WOp)) = (step2.1, []) :=
    phase2_foldl_noop cfg visible step2.1 [] hP1 hP3
  simp only [update_widgets, uwRemoved, uwKept]
  rw [hrem2, horder2, hkept2]
  simp only [List.map_nil]
  rw [hnoop, if_neg (by simp)]

/-! ## Decimal digits round-trip -/

theorem digitToChar_isDigit {d : Nat} (h : d < 10) :
    isDigitChar (digitToChar d) = true := by
  interval_cases d <;> decide

theorem digitVal_digitToChar {d : Nat} (h : d < 10) :
    digitVal (digitToChar d) = d := by
  interval_cases d <;> decide

theorem isDigitChar_toNat {c : Char} (h : isDigitChar c = true) :
    48 ≤ c.toNat ∧ c.toNat ≤ 57 := by
  unfold isDigitChar at h
  simp only [Bool.and_eq_true, decide_eq_true_eq] at h
  exact h

theorem isWS_of_digit {c : Char} (h : isDigitChar c = true) : isWS c = false := by
  obtain ⟨h1, h2⟩ := isDigitChar_toNat h
  unfold isWS
  simp [List.contains]
  omega

theorem digit_ne_of_toNat {c : Char} (h : isDigitChar c = true) {c2 : Char}
    (h2 : c2.toNat < 48 ∨ 57 < c2.toNat) : c ≠ c2 := by
  obtain ⟨ha, hb⟩ := isDigitChar_toNat h
  intro hx
  subst hx
  omega

theorem natCharsAux_all_digit :
    ∀ fuel n, ∀ c ∈ natCharsAux fuel n, isDigitChar c = true := by
  intro fuel
  induction fuel with
  | zero => intro n c hc; simp [natCharsAux] at hc
  | succ fuel ih =>
    intro n c hc
    cases n with
    | zero => simp [natCharsAux] at hc
    | succ m =>
      rw [natCharsAux] at hc
      rcases List.mem_cons.mp hc with h | h
      · subst h
        exact digitToChar_isDigit (Nat.mod_lt _ (by omega))
      · exact ih _ c h

theorem natChars_all_digit (n : Nat) : ∀ c ∈ natChars n, isDigitChar c = true := by
  intro c hc
  unfold natChars at hc
  by_cases h : n = 0
  · rw [if_pos h] at hc
    simp at hc
    subst hc
    decide
  · rw [if_neg h] at hc
    rw [List.mem_reverse] at hc
    exact natCharsAux_all_digit n n c hc

theorem natChars_ne_nil (n : Nat) : natChars n ≠ [] := by
  unfold natChars
  by_cases h : n = 0
  · rw [if_pos h]; simp
  · rw [if_neg h]
    obtain ⟨m, rfl⟩ := Nat.exists_eq_succ_of_ne_zero h
    rw [natCharsAux]
    simp

theorem foldl_digits_aux :
    ∀ fuel n acc, n ≤ fuel →
      ((natCharsAux fuel n).reverse).foldl (fun a c => a * 10 + digitVal c) acc =
        acc * 10 ^ (natCharsAux fuel n).length + n := by
  intro fuel
  induction fuel with
  | zero =>
    intro n acc h
    interval_cases n
    simp [natCharsAux]
  | succ fuel ih =>
    intro n acc h
    cases n with
    | zero => simp [natCharsAux]
    | succ m =>
      rw [natCharsAux, List.reverse_cons, List.foldl_append]
      have hdiv : (m + 1) / 10 ≤ fuel := by
        have := Nat.div_lt_self (Nat.succ_pos m) (by omega : 1 < 10)
        omega
      rw [ih ((m + 1) / 10) acc hdiv]
      simp only [List.foldl_cons, List.foldl_nil, List.length_cons]
      rw [digitVal_digitToChar (Nat.mod_lt _ (by omega))]
      have hmod := Nat.div_add_mod (m + 1) 10
      rw [pow_succ]
      ring_nf
      omega

theorem evalDigits_natChars (n : Nat) : evalDigits (natChars n) = n := by
  unfold natChars evalDigits
  by_cases h : n = 0
  · rw [if_pos h, h]; decide
  · rw [if_neg h]
    rw [foldl_digits_aux n n 0 (le_refl n)]
    omega

theorem parseU32_natChars {n : Nat} (h : n < 4294967296) :
    parseU32 (natChars n) = some n := by
  have hnn := natChars_ne_nil n
  have hda := natChars_all_digit n
  obtain ⟨c, cs, hc⟩ := List.exists_cons_of_ne_nil hnn
  have hcd : isDigitChar c = true := hda c (by rw [hc]; simp)
  have hplus : c ≠ '+' := digit_ne_of_toNat hcd (by left; decide)
  simp only [parseU32]
  rw [hc]
  have hcond : ¬ ((c :: cs).head? = some '+') := by simp [hplus]
  rw [if_neg hcond]
  rw [if_neg (by simp : ¬ ((c :: cs).isEmpty = true))]
  rw [if_pos (show (c :: cs).all isDigitChar = true by
    rw [← hc]; exact List.all_eq_true.mpr hda)]
  rw [← hc, evalDigits_natChars, if_pos h]

/-! ## Prefix and trim computations -/

theorem isPrefixOf_append_self (a b : Str) : a.isPrefixOf (a ++ b) = true := by
  simp only [List.isPrefixOf_iff_prefix]
  exact List.prefix_append a b

theorem isPrefixOf_cons_false {a b : Char} (h : (a == b) = false) (as bs : Str) :
    (a :: as).isPrefixOf (b :: bs) = false := by
  show (a == b && as.isPrefixOf bs) = false
  rw [h, Bool.false_and]

theorem hdrPfx_cons : hdrPfx = 'V' :: chars "irtual desk " := by decide

theorem focusedPfx_cons : focusedPfx = 'F' :: chars "ocused: " := by decide

theorem populatedPfx_cons : populatedPfx = 'P' :: chars "opulated: " := by decide

theorem windowsPfx_cons : windowsPfx = 'W' :: chars "indows: " := by decide

theorem rdropWhile_append_all {p : Char → Bool} {b : Str} (hb : ∀ c ∈ b, p c = true)
    (l : Str) : (l ++ b).rdropWhile p = l.rdropWhile p := by
  unfold List.rdropWhile
  rw [List.reverse_append, List.dropWhile_append_of_pos]
  intro a ha
  exact hb a (List.mem_reverse.mp ha)

theorem rdropWhile_eq_self_of_last {p : Char → Bool} {l : Str} (hne : l ≠ [])
    (h : p (l.getLast hne) = false) : l.rdropWhile p = l := by
  rw [List.rdropWhile_eq_self_iff]
  intro hl
  rw [show l.getLast hl = l.getLast hne from rfl]
  simp [h]

theorem trim_ws_wrap (a l : Str) (ha : ∀ c ∈ a, isWS c) (h1 : l.dropWhile isWS = l)
    (h2 : l.rdropWhile isWS = l) : trim (a ++ l) = l := by
  unfold trim
  rw [List.dropWhile_append_of_pos ha, h1, h2]

theorem natChars_getLast_not_ws (n : Nat) (h : natChars n ≠ []) :
    isWS ((natChars n).getLast h) = false :=
  isWS_of_digit (natChars_all_digit n _ (List.getLast_mem h))

/-- Trimming the serialized `Windows:` attribute line. -/
theorem trim_windows_line (wc : Nat) :
    trim (chars "    Windows: " ++ natChars wc) = windowsPfx ++ natChars wc := by
  have hsplit : chars "    Windows: " = chars "    " ++ windowsPfx := by decide
  rw [hsplit, List.append_assoc]
  apply trim_ws_wrap
  · decide
  · rw [windowsPfx_cons, List.cons_append, List.dropWhile_cons_of_neg (by decide)]
  · apply rdropWhile_eq_self_of_last (List.append_ne_nil_of_right_ne_nil _ (natChars_ne_nil wc))
    rw [List.getLast_append_right (natChars_ne_nil wc)]
    exact natChars_getLast_not_ws wc _

/-- Trimming the serialized header line, nonempty-name case. -/
theorem trim_header_line_ne {name : Str} (id : Nat) (hname : WfName name)
    (hne : name ≠ []) :
    trim (hdrPfx ++ natChars id ++ chars ":    " ++ name) =
      hdrPfx ++ natChars id ++ chars ":    " ++ name := by
  unfold trim
  have hhead : List.dropWhile isWS (hdrPfx ++ natChars id ++ chars ":    " ++ name) =
      hdrPfx ++ natChars id ++ chars ":    " ++ name := by
    rw [hdrPfx_cons]
    simp only [List.cons_append, List.append_assoc]
    rw [List.dropWhile_cons_of_neg (by decide)]
  rw [hhead]
  have hlastne : ¬ isWS (name.getLast hne) = true := by
    have := hname.2.1
    rw [List.rdropWhile_eq_self_iff] at this
    exact this hne
  apply rdropWhile_eq_self_of_last (List.append_ne_nil_of_right_ne_nil _ hne)
  rw [List.getLast_append_right hne]
  simpa using hlastne

/-- Trimming the serialized header line, empty-name case. -/
theorem trim_header_line_nil (id : Nat) :
    trim (hdrPfx ++ natChars id ++ chars ":    " ++ ([] : Str)) =
      hdrPfx ++ natChars id ++ [':'] := by
  rw [List.append_nil]
  unfold trim
  have hhead : List.dropWhile isWS (hdrPfx ++ natChars id ++ chars ":    ") =
      hdrPfx ++ natChars id ++ chars ":    " := by
    rw [hdrPfx_cons]
    simp only [List.cons_append, List.append_assoc]
    rw [List.dropWhile_cons_of_neg (by decide)]
  rw [hhead]
  have hsplit : chars ":    " = [':'] ++ chars "    " := by decide
  rw [hsplit, ← List.append_assoc]
  rw [rdropWhile_append_all (by decide)]
  apply rdropWhile_eq_self_of_last
      (List.append_ne_nil_of_right_ne_nil _ (by simp : ([':'] : Str) ≠ []))
  rw [List.getLast_append_right (by simp : ([':'] : Str) ≠ [])]
  decide

/-! ## Header-line parsing round-trip -/

theorem findColon_append {a : Str} (b : Str) (h : ':' ∉ a) :
    findColon (a ++ ':' :: b) = some a.length := by
  induction a with
  | nil => simp [findColon]
  | cons c cs ih =>
    simp only [List.mem_cons, not_or] at h
    rw [List.cons_append, findColon, if_neg (fun hx => h.1 hx.symm), ih h.2]
    simp

theorem colon_not_mem_hdr_nat (id : Nat) : ':' ∉ hdrPfx ++ natChars id := by
  rw [List.mem_append, not_or]
  refine ⟨by decide, ?_⟩
  intro hmem
  have := natChars_all_digit id ':' hmem
  exact absurd this (by decide)

theorem stripPfx_append (p rest : Str) : stripPfx p (p ++ rest) = some rest := by
  unfold stripPfx
  rw [if_pos (isPrefixOf_append_self p rest), List.drop_left]

theorem parseHeaderLine_of_ne {name : Str} (id : Nat) (hid : id < 4294967296)
    (hname : WfName name) :
    parseHeaderLine ((hdrPfx ++ natChars id) ++ ':' :: (chars "    " ++ name)) =
      some (VirtualDesktop.new id name) := by
  unfold parseHeaderLine
  rw [findColon_append _ (colon_not_mem_hdr_nat id)]
  simp only [Option.some_bind]
  rw [List.take_left, stripPfx_append, Option.some_bind, parseU32_natChars hid]
  rw [show (hdrPfx ++ natChars id) ++ ':' :: (chars "    " ++ name) =
      ((hdrPfx ++ natChars id) ++ [':']) ++ (chars "    " ++ name) by simp]
  rw [List.drop_left' (by simp; omega)]
  rw [trim_ws_wrap (chars "    ") name (by decide) hname.1 hname.2.1]
  simp

theorem parseHeaderLine_of_nil (id : Nat) (hid : id < 4294967296) :
    parseHeaderLine ((hdrPfx ++ natChars id) ++ [':']) =
      some (VirtualDesktop.new id []) := by
  rw [show ((hdrPfx ++ natChars id) ++ [':'] : Str) =
      (hdrPfx ++ natChars id) ++ ':' :: ([] : Str) from rfl]
  unfold parseHeaderLine
  rw [findColon_append _ (colon_not_mem_hdr_nat id)]
  simp only [Option.some_bind]
  rw [List.take_left, stripPfx_append, Option.some_bind, parseU32_natChars hid]
  rw [show (hdrPfx ++ natChars id) ++ ':' :: ([] : Str) =
      ((hdrPfx ++ natChars id) ++ [':']) ++ ([] : Str) by simp]
  rw [List.drop_left' (by simp; omega)]
  simp [trim, List.rdropWhile_nil]

/-! ## Single parser steps over serialized record lines -/

theorem parseStep_header (m : VDMap) (cur : Option VirtualDesktop)
    {d : VirtualDesktop} (hwf : WfRecord d) :
    parseStep (m, cur) (hdrPfx ++ natChars d.id ++ chars ":    " ++ d.name) =
      (flushCur m cur, some (VirtualDesktop.new d.id d.name)) := by
  obtain ⟨hid, -, hname⟩ := hwf
  simp only [parseStep]
  by_cases hne : d.name = []
  · rw [hne, trim_header_line_nil d.id]
    have hp : hdrPfx.isPrefixOf (hdrPfx ++ natChars d.id ++ [':']) = true := by
      rw [List.append_assoc]
      exact isPrefixOf_append_self _ _
    rw [if_pos hp]
    rw [show (hdrPfx ++ natChars d.id ++ [':'] : Str) =
        (hdrPfx ++ natChars d.id) ++ [':'] from rfl]
    rw [parseHeaderLine_of_nil d.id hid]
  · rw [trim_header_line_ne d.id hname hne]
    have hp : hdrPfx.isPrefixOf (hdrPfx ++ natChars d.id ++ chars ":    " ++ d.name)
        = true := by
      rw [List.append_assoc, List.append_assoc]
      exact isPrefixOf_append_self _ _
    rw [if_pos hp]
    rw [show hdrPfx ++ natChars d.id ++ chars ":    " ++ d.name =
        (hdrPfx ++ natChars d.id) ++ ':' :: (chars "    " ++ d.name) by
      rw [show (chars ":    " : Str) = ':' :: chars "    " by decide]
      simp]
    rw [parseHeaderLine_of_ne d.id hid hname]

theorem parseStep_focused (m : VDMap) (v : VirtualDesktop) (b : Bool) :
    parseStep (m, some v) (chars "    Focused: " ++ boolChars b) =
      (m, some { v with focused := b }) := by
  cases b <;> rfl

theorem parseStep_populated (m : VDMap) (v : VirtualDesktop) (b : Bool) :
    parseStep (m, some v) (chars "    Populated: " ++ boolChars b) =
      (m, some { v with populated := b }) := by
  cases b <;> rfl

theorem parseStep_windows (m : VDMap) (v : VirtualDesktop) {wc : Nat}
    (h : wc < 4294967296) :
    parseStep (m, some v) (chars "    Windows: " ++ natChars wc) =
      (m, some { v with window_count := wc }) := by
  simp only [parseStep]
  rw [trim_windows_line wc]
  have hno : hdrPfx.isPrefixOf (windowsPfx ++ natChars wc) = false := by
    rw [hdrPfx_cons, windowsPfx_cons, List.cons_append]
    exact isPrefixOf_cons_false (by decide) _ _
  rw [if_neg (by simp [hno])]
  simp only [applyAttrLine]
  have h1 : focusedPfx.isPrefixOf (windowsPfx ++ natChars wc) = false := by
    rw [focusedPfx_cons, windowsPfx_cons, List.cons_append]
    exact isPrefixOf_cons_false (by decide) _ _
  have h2 : populatedPfx.isPrefixOf (windowsPfx ++ natChars wc) = false := by
    rw [populatedPfx_cons, windowsPfx_cons, List.cons_append]
    exact isPrefixOf_cons_false (by decide) _ _
  rw [if_neg (by simp [h1]), if_neg (by simp [h2]),
    if_pos (isPrefixOf_append_self windowsPfx (natChars wc))]
  rw [stripPfx_append]
  simp [parseU32_natChars h]

theorem parseStep_record (m : VDMap) (cur : Option VirtualDesktop)
    {d : VirtualDesktop} (hwf : WfRecord d) :
    (mkRecordLines d).foldl parseStep (m, cur) = (flushCur m cur, some d) := by
  obtain ⟨id, name, f, p, wc⟩ := d
  obtain ⟨hid, hwc, hname⟩ := hwf
  simp only [mkRecordLines, List.foldl_cons, List.foldl_nil]
  rw [parseStep_header m cur ⟨hid, hwc, hname⟩]
  rw [parseStep_focused, parseStep_populated, parseStep_windows _ _ hwc]
  rfl

/-! ## Payload framing (`str::lines` inversion) -/

theorem splitNL_append {l : Str} (rest : Str) (h : '\n' ∉ l) :
    splitNL (l ++ '\n' :: rest) = l :: splitNL rest := by
  induction l with
  | nil => simp [splitNL]
  | cons c cs ih =>
    simp only [List.mem_cons, not_or] at h
    rw [List.cons_append, splitNL, if_neg (fun hx => h.1 hx.symm), ih h.2]

theorem splitNL_payload (L : List Str) (h : ∀ l ∈ L, '\n' ∉ l) :
    splitNL ((L.map (· ++ ['\n'])).flatten) = L ++ [[]] := by
  induction L with
  | nil => rfl
  | cons l ls ih =>
    rw [List.map_cons, List.flatten_cons, List.append_assoc, List.singleton_append]
    rw [splitNL_append _ (h l (by simp))]
    rw [ih (fun x hx => h x (by simp [hx]))]
    rfl

theorem rustLines_payload (L : List Str) (hn : ∀ l ∈ L, '\n' ∉ l)
    (hcr : ∀ l ∈ L, l.getLast? ≠ some '\r') :
    rustLines ((L.map (· ++ ['\n'])).flatten) = L := by
  simp only [rustLines]
  rw [splitNL_payload L hn, List.getLast?_concat, if_pos rfl, List.dropLast_concat]
  have hid : ∀ l ∈ L, stripCR l = l := by
    intro l hl
    unfold stripCR
    rw [if_neg (hcr l hl)]
  rw [List.map_congr_left hid]
  exact List.map_id L

theorem getLast?_ne_cr_of_rdrop {l : Str} (h : l.rdropWhile isWS = l) :
    l.getLast? ≠ some '\r' := by
  intro hx
  have hne : l ≠ [] := by
    intro h0
    rw [h0] at hx
    simp at hx
  rw [List.rdropWhile_eq_self_iff] at h
  have hlast := h hne
  rw [List.getLast?_eq_getLast l hne, Option.some.injEq] at hx
  rw [hx] at hlast
  exact hlast (by decide)

theorem natChars_getLast?_ne_cr (n : Nat) : (natChars n).getLast? ≠ some '\r' := by
  intro hx
  have hne := natChars_ne_nil n
  rw [List.getLast?_eq_getLast _ hne, Option.some.injEq] at hx
  have := natChars_all_digit n _ (List.getLast_mem hne)
  rw [hx] at this
  exact absurd this (by decide)

theorem mkRecordLines_no_newline {d : VirtualDesktop} (hwf : WfRecord d) :
    ∀ l ∈ mkRecordLines d, '\n' ∉ l := by
  obtain ⟨-, -, hname⟩ := hwf
  have hdig : ∀ n : Nat, '\n' ∉ natChars n := by
    intro n hmem
    exact absurd (natChars_all_digit n '\n' hmem) (by decide)
  have hbool : ∀ b, '\n' ∉ boolChars b := by
    intro b
    cases b <;> decide
  intro l hl
  simp only [mkRecordLines, List.mem_cons, List.not_mem_nil, or_false] at hl
  rcases hl with rfl | rfl | rfl | rfl
  · intro hmem
    rcases List.mem_append.mp hmem with h | h
    · rcases List.mem_append.mp h with h | h
      · rcases List.mem_append.mp h with h | h
        · exact absurd h (by decide)
        · exact hdig _ h
      · exact absurd h (by decide)
    · exact hname.2.2 h
  · intro hmem
    rcases List.mem_append.mp hmem with h | h
    · exact absurd h (by decide)
    · exact hbool _ h
  · intro hmem
    rcases List.mem_append.mp hmem with h | h
    · exact absurd h (by decide)
    · exact hbool _ h
  · intro hmem
    rcases List.mem_append.mp hmem with h | h
    · exact absurd h (by decide)
    · exact hdig _ h

theorem mkRecordLines_no_cr {d : VirtualDesktop} (hwf : WfRecord d) :
    ∀ l ∈ mkRecordLines d, l.getLast? ≠ some '\r' := by
  obtain ⟨-, -, hname⟩ := hwf
  intro l hl
  simp only [mkRecordLines, List.mem_cons, List.not_mem_nil, or_false] at hl
  rcases hl with rfl | rfl | rfl | rfl
  · by_cases hne : d.name = []
    · rw [hne, List.append_nil]
      rw [List.getLast?_append_of_ne_nil _ (by decide : (chars ":    " : Str) ≠ [])]
      decide
    · rw [List.getLast?_append_of_ne_nil _ hne]
      exact getLast?_ne_cr_of_rdrop hname.2.1
  · cases d.focused <;> decide
  · cases d.populated <;> decide
  · rw [List.getLast?_append_of_ne_nil _ (natChars_ne_nil d.window_count)]
    exact natChars_getLast?_ne_cr d.window_count

/-! ## Folding the parser over a whole payload -/

theorem parse_records (rs : List VirtualDesktop) :
    ∀ (m : VDMap) (cur : Option VirtualDesktop), (∀ d ∈ rs, WfRecord d) →
      flushCur (((rs.map mkRecordLines).flatten).foldl parseStep (m, cur)).1
          (((rs.map mkRecordLines).flatten).foldl parseStep (m, cur)).2 =
        rs.foldl (fun acc d => insertAssoc acc d.id d) (flushCur m cur) := by
  induction rs with
  | nil => intro m cur _; rfl
  | cons d rest ih =>
    intro m cur h
    rw [List.map_cons, List.flatten_cons, List.foldl_append]
    rw [parseStep_record m cur (h d (by simp))]
    rw [ih (flushCur m cur) (some d) (fun d2 h2 => h d2 (by simp [h2]))]
    rw [List.foldl_cons]
    rfl

theorem foldl_insert_fresh (rs : List VirtualDesktop) :
    ∀ m : VDMap, (rs.map (·.id)).Nodup → (∀ d ∈ rs, d.id ∉ m.map (·.1)) →
      rs.foldl (fun acc d => insertAssoc acc d.id d) m =
        m ++ rs.map (fun d => (d.id, d)) := by
  induction rs with
  | nil => intro m _ _; simp
  | cons d rest ih =>
    intro m hnd hfresh
    simp only [List.map_cons, List.nodup_cons] at hnd
    rw [List.foldl_cons]
    have hnone : lookupA d.id m = none := by
      unfold lookupA
      rw [alookup_eq_none_iff]
      exact hfresh d (by simp)
    have hins : insertAssoc m d.id d = m ++ [(d.id, d)] := by
      unfold insertAssoc
      rw [hnone]
    have hfresh2 : ∀ d2 ∈ rest, d2.id ∉ (m ++ [(d.id, d)]).map (·.1) := by
      intro d2 h2
      rw [List.map_append, List.mem_append, not_or]
      refine ⟨hfresh d2 (by simp [h2]), ?_⟩
      simp only [List.map_cons, List.map_nil, List.mem_singleton]
      intro hx
      exact hnd.1 (hx ▸ List.mem_map_of_mem _ h2)
    rw [hins, ih (m ++ [(d.id, d)]) hnd.2 hfresh2]
    simp

theorem pairwise_ne_of_nodup_map {α β : Type _} {f : α → β} :
    ∀ {l : List α}, (l.map f).Nodup → l.Pairwise (fun a b => f a ≠ f b) := by
  intro l
  induction l with
  | nil => intro _; exact List.Pairwise.nil
  | cons a rest ih =>
    intro h
    rw [List.map_cons, List.nodup_cons] at h
    refine List.Pairwise.cons ?_ (ih h.2)
    intro b hb hx
    exact h.1 (hx ▸ List.mem_map_of_mem f hb)

/-! ## Claim C7 -/

/-- C7: round-trip — parsing a well-formed payload of N desktop records with
distinct ids and taking a snapshot yields exactly N records (a permutation of
the input, so every field of every record equals its input record), sorted
strictly ascending by id. -/
theorem c7_roundtrip (rs : List VirtualDesktop) (hwf : ∀ d ∈ rs, WfRecord d)
    (hnd : (rs.map (·.id)).Nodup) :
    List.Perm (get_virtual_desktops (parse_virtual_desktop_state (mkPayload rs))) rs ∧
    List.Pairwise (fun a b => a.id < b.id)
      (get_virtual_desktops (parse_virtual_desktop_state (mkPayload rs))) ∧
    (get_virtual_desktops (parse_virtual_desktop_state (mkPayload rs))).length =
      rs.length := by
  have hn : ∀ l ∈ (rs.map mkRecordLines).flatten, '\n' ∉ l := by
    intro l hl
    rcases List.mem_flatten.mp hl with ⟨lines, hlines, hmem⟩
    rcases List.mem_map.mp hlines with ⟨d, hd, rfl⟩
    exact mkRecordLines_no_newline (hwf d hd) l hmem
  have hcr : ∀ l ∈ (rs.map mkRecordLines).flatten, l.getLast? ≠ some '\r' := by
    intro l hl
    rcases List.mem_flatten.mp hl with ⟨lines, hlines, hmem⟩
    rcases List.mem_map.mp hlines with ⟨d, hd, rfl⟩
    exact mkRecordLines_no_cr (hwf d hd) l hmem
  have hmap : parse_virtual_desktop_state (mkPayload rs) =
      rs.map (fun d => (d.id, d)) := by
    unfold parse_virtual_desktop_state mkPayload
    rw [rustLines_payload _ hn hcr]
    rw [parse_records rs [] none hwf]
    rw [show flushCur ([] : VDMap) none = ([] : VDMap) from rfl]
    rw [foldl_insert_fresh rs ([] : VDMap) hnd (by simp)]
    rfl
  rw [hmap]
  have hvals : (rs.map (fun d => (d.id, d))).map (·.2) = rs := by
    rw [List.map_map]
    exact List.map_id rs
  unfold get_virtual_desktops
  rw [hvals]
  have hperm := List.mergeSort_perm rs (fun a b => decide (a.id ≤ b.id))
  refine ⟨hperm, ?_, hperm.length_eq⟩
  have hsorted : (rs.mergeSort (fun a b => decide (a.id ≤ b.id))).Pairwise
      (fun a b => decide (a.id ≤ b.id) = true) :=
    List.sorted_mergeSort
      (by intro a b c hab hbc; simp only [decide_eq_true_eq] at hab hbc ⊢; omega)
      (by intro a b; simp only [Bool.or_eq_true, decide_eq_true_eq]; omega) rs
  have hnodup : ((rs.mergeSort (fun a b => decide (a.id ≤ b.id))).map (·.id)).Nodup :=
    ((hperm.map (·.id)).nodup_iff).mpr hnd
  have hne := pairwise_ne_of_nodup_map hnodup
  exact (hsorted.and hne).imp
    (fun h => lt_of_le_of_ne (by simpa using h.1) h.2)

/-- C7 witness: a concrete two-record payload (ids 2 and 1) round-trips. -/
theorem c7_roundtrip_witness :
    List.Perm
      (get_virtual_desktops (parse_virtual_desktop_state
        (mkPayload [⟨2, chars "B", false, true, 1⟩, ⟨1, chars "A", true, true, 2⟩])))
      [⟨2, chars "B", false, true, 1⟩, ⟨1, chars "A", true, true, 2⟩] ∧
    List.Pairwise (fun a b => a.id < b.id)
      (get_virtual_desktops (parse_virtual_desktop_state
        (mkPayload [⟨2, chars "B", false, true, 1⟩, ⟨1, chars "A", true, true, 2⟩]))) ∧
    (get_virtual_desktops (parse_virtual_desktop_state
        (mkPayload [⟨2, chars "B", false, true, 1⟩, ⟨1, chars "A", true, true, 2⟩]))).length =
      ([⟨2, chars "B", false, true, 1⟩, ⟨1, chars "A", true, true, 2⟩] :
        List VirtualDesktop).length :=
  c7_roundtrip [⟨2, chars "B", false, true, 1⟩, ⟨1, chars "A", true, true, 2⟩]
    (by decide) (by decide)

/-- C8 witness: starting from the empty rendered state with a one-desktop
snapshot, the second application emits no operations. -/
theorem c8_reconciler_idempotent_witness :
    (update_widgets defaultConfig
        (update_widgets defaultConfig { widgets := [], widget_order := [] }
          [⟨1, chars "Home", true, true, 2⟩]).1
        [⟨1, chars "Home", true, true, 2⟩]).2 = [] :=
  c8_reconciler_idempotent defaultConfig { widgets := [], widget_order := [] }
    [⟨1, chars "Home", true, true, 2⟩] (List.Pairwise.nil) (by decide)

end WaybarVD
